import Mathlib

/-
Verification development for the property-drawing processing pipeline.

The JavaScript sources are shallowly embedded: strings are lists of
characters, the mutable PropertyMap is an association list in insertion
order, the dedup cache is a pair of lists used as sets, and every external
effect (Drive metadata fetch, Gemini calls, file copy, ledger append) is
an oracle value passed in.  Each definition mirrors one source function
and is named after it.
-/

namespace PropPipeline

/-- JavaScript strings, modelled as lists of characters. -/
abbrev Str := List Char

/-- Lowercase ASCII letter test, the a-z range of the normalization regex. -/
def isLowerAZ (c : Char) : Bool := 'a' ≤ c && c ≤ 'z'

/-- ASCII digit test, the 0-9 range of the normalization regex. -/
def isDigit09 (c : Char) : Bool := '0' ≤ c && c ≤ '9'

/-- The characters matched by the regex class backslash-s in JavaScript
(ASCII portion): space, tab, newline, carriage return, vertical tab, form feed. -/
def jsWs (c : Char) : Bool :=
  c == ' ' || c == '\t' || c == '\n' || c == '\x0d' || c == '\x0b' || c == '\x0c'

/-- The character class kept by the normalization regex of
normalizeFilename in processFile.js: lowercase letters, digits and whitespace. -/
def allowedChar (c : Char) : Bool := isLowerAZ c || isDigit09 c || jsWs c

/-- String.prototype.toLowerCase, character by character. -/
def lowerStr (s : Str) : Str := s.map Char.toLower

/-- String.prototype.toUpperCase, character by character. -/
def upperStr (s : Str) : Str := s.map Char.toUpper

/-- The replace of every character outside lowercase letters, digits and
whitespace by a single space (processFile.js, normalizeFilename step 2). -/
def replaceBad (s : Str) : Str := s.map (fun c => if allowedChar c then c else ' ')

/-- Helper for collapseWs: the boolean flag records whether the previous
character was whitespace (so the run is already represented by a space). -/
def collapseWsAux : Bool → Str → Str
  | _, [] => []
  | inRun, c :: rest =>
    if jsWs c then
      if inRun then collapseWsAux true rest
      else ' ' :: collapseWsAux true rest
    else c :: collapseWsAux false rest

/-- The replace of every whitespace run by one space
(the replace of backslash-s-plus by a space in the sources). -/
def collapseWs (s : Str) : Str := collapseWsAux false s

/-- String.prototype.trim restricted to the whitespace class above. -/
def trimWs (s : Str) : Str :=
  ((s.dropWhile jsWs).reverse.dropWhile jsWs).reverse

/-- normalizeFilename from processFile.js: lowercase, replace every character
outside lowercase letters, digits and whitespace by a space, collapse
whitespace runs, trim. -/
def normalizeFilename (s : Str) : Str :=
  trimWs (collapseWs (replaceBad (lowerStr s)))

/-- Modelled from the spec: the normalization as the spec and claim C5 word
it — lowercase, STRIP (delete) all characters outside lowercase letters,
digits and whitespace, collapse whitespace.  This is the spec-side
definition used only to compare against the code's normalizeFilename,
which replaces such characters by a space instead of deleting them. -/
def specNormalizeFilename (s : Str) : Str :=
  trimWs (collapseWs ((lowerStr s).filter allowedChar))

/-- Word character of the JavaScript regex word-boundary: letters, digits,
underscore. -/
def isWordC (c : Char) : Bool :=
  isLowerAZ c || ('A' ≤ c && c ≤ 'Z') || isDigit09 c || c == '_'

/-- Does the needle occur at the start of the haystack
(String.prototype.startsWith on the model)? -/
def startsWith : Str → Str → Bool
  | [], _ => true
  | _ :: _, [] => false
  | a :: as, b :: bs => a == b && startsWith as bs

/-- String.prototype.includes: does the needle occur somewhere in the
haystack? -/
def containsSub (needle : Str) : Str → Bool
  | [] => startsWith needle []
  | c :: rest => startsWith needle (c :: rest) || containsSub needle rest

/-- toTitleCase helper: the flag records whether the previous character is a
word character (so there is no word boundary before the current one). -/
def titleAux : Bool → Str → Str
  | _, [] => []
  | prevWord, c :: rest =>
    (if !prevWord && isLowerAZ c then c.toUpper else c) :: titleAux (isWordC c) rest

/-- toTitleCase from processFile.js: lowercase the string, then uppercase
every lowercase letter standing at a word boundary. -/
def toTitleCase (s : Str) : Str := titleAux false (lowerStr s)

/-- A registry row loaded from the Properties sheet (sheetUtils.js
getPropertyData returns name and address per row). -/
structure PropertyRecord where
  name : Str
  address : Str
deriving DecidableEq, Repr

/-- The propertyMap of sheetUtils.js: a Map from normalized-lowercase name
to canonical display name, kept in insertion order. -/
abbrev PMap := List (Str × Str)

/-- Map.prototype.set semantics on the association-list model: update an
existing key in place, append a new key at the end (insertion order). -/
def pmSet (m : PMap) (k v : Str) : PMap :=
  if m.any (fun e => e.1 == k) then
    m.map (fun e => if e.1 == k then (k, v) else e)
  else m ++ [(k, v)]

/-- The canonical display form populatePropertyMap computes from a
registry name: collapse whitespace, trim, title-case
(toTitleCase of name.replace of whitespace runs, trimmed). -/
def propCanon (name : Str) : Str := toTitleCase (trimWs (collapseWs name))

/-- The key under which a registry name is stored: the lowercase of its
canonical form. -/
def propKey (name : Str) : Str := lowerStr (propCanon name)

/-- populatePropertyMap from processFile.js: insert every registry row with
a non-empty (truthy) name, keyed by the lowercase of its canonical form. -/
def populatePropertyMap (props : List PropertyRecord) : PMap :=
  props.foldl
    (fun acc p => if p.name.isEmpty then acc else pmSet acc (propKey p.name) (propCanon p.name))
    []

/-- identifyPropertyFromFilename from processFile.js: normalize the
filename, scan the map entries in order, return the canonical value of the
first key contained in the normalized filename. -/
def identifyPropertyFromFilename (m : PMap) (filename : Str) : Option Str :=
  let clean := normalizeFilename filename
  (m.find? (fun e => containsSub e.1 clean)).map (fun e => e.2)

/-- Is this a 4-character group matched by the year pattern: 19 or 20
followed by two digits? -/
def yearTok : Str → Bool
  | [a, b, c, d] =>
    ((a == '1' && b == '9') || (a == '2' && b == '0')) && isDigit09 c && isDigit09 d
  | _ => false

/-- Left word-boundary test for the regex backslash-b: satisfied at the
start of the string or after a non-word character. -/
def boundaryL : Option Char → Bool
  | none => true
  | some c => !isWordC c

/-- Right word-boundary test: satisfied at the end of the string or before
a non-word character. -/
def boundaryR : Str → Bool
  | [] => true
  | c :: _ => !isWordC c

/-- Attempt to match the year regex at the current position, with the
preceding character (if any) supplied for the left boundary test. -/
def matchHere (prev : Option Char) : Str → Option Str
  | a :: b :: c :: d :: rest =>
    if boundaryL prev && yearTok [a, b, c, d] && boundaryR rest then some [a, b, c, d]
    else none
  | _ => none

/-- Scan positions left to right, as the JavaScript regex engine does, and
return the first match of the year pattern. -/
def yearScan (prev : Option Char) : Str → Option Str
  | [] => matchHere prev []
  | c :: rest =>
    match matchHere prev (c :: rest) with
    | some y => some y
    | none => yearScan (some c) rest

/-- The first match of the year regex in the text
(String.prototype.match with the boundary-delimited 19xx-or-20xx pattern). -/
def firstYearMatch (s : Str) : Option Str := yearScan none s

/-- The sentinel year string of the sources. -/
def unknownYear : Str := "Unknown_Year".data

/-- All matches of the year pattern while scanning left to right; used only
to state the spec-side in-range predicate below. -/
def allYearTokens (prev : Option Char) : Str → List Str
  | [] => []
  | c :: rest =>
    match matchHere prev (c :: rest) with
    | some y => y :: allYearTokens (some c) rest
    | none => allYearTokens (some c) rest

/-- Numeric value of a digit string. -/
def digitsToNat (s : Str) : Nat :=
  s.foldl (fun acc c => acc * 10 + (c.toNat - '0'.toNat)) 0

/-- Modelled from the spec: does the text contain a 4-digit token in the
inclusive range from 1950 to the present year, as claim C4 words it?
Spec-side definition, used only to compare against the code's regex
parse, which checks no range at all. -/
def specHasTokenInRange (present : Nat) (s : Str) : Bool :=
  (allYearTokens none s).any (fun y => 1950 ≤ digitsToNat y && digitsToNat y ≤ present)

/-- The possible outcomes of one Gemini HTTP exchange as seen by
callGeminiWithPayload in processFile.js:
semFail = the semaphore acquisition threw; netErr = fetch itself threw
(network failure or the 15-second AbortController timeout); httpErr = a
non-2xx response; jsonErr = response body parsing threw; ok = a 2xx
response whose extracted text is the given value (none when the response
carried no text). -/
inductive GeminiOutcome
  | semFail
  | netErr
  | httpErr
  | jsonErr
  | ok (text : Option Str)
deriving DecidableEq, Repr

/-- callGeminiWithPayload from processFile.js.  Every failure path returns
the sentinel: semaphore failure returns it directly, non-2xx returns it
directly, a thrown fetch or json error is re-thrown into the outer catch
which returns it.  On a 2xx response the trimmed text is matched against
the year regex and the first match (or the sentinel) is returned.  The
total Lean type records that the function never propagates an error. -/
def callGeminiWithPayload : GeminiOutcome → Str
  | .ok (some raw) =>
    let t := trimWs raw
    if t.isEmpty then unknownYear
    else match firstYearMatch t with
      | some y => y
      | none => unknownYear
  | _ => unknownYear

/-- Math.round of 0.8 times a natural width or height: 0.8 * w rounded to
the nearest integer is the floor of (8 * w + 5) / 10. -/
def jsRound8of10 (w : Nat) : Nat := (8 * w + 5) / 10

/-- Result of one quality-loop phase of compressJpegToTarget: either a
fitting encode (its size in bytes and the quality used) or the floor was
passed; paired with the list of probes (quality, size in bytes) in the
order they were produced, and the size of the last probe. -/
structure QualityPhase where
  fit : Option (Nat × Nat)
  probes : List (Nat × Nat)
  last : Option Nat
deriving Repr

/-- The quality loop of compressJpegToTarget (processFile.js): re-encode at
decreasing quality while quality is at least the floor 40, stepping by 10
above 70 and by 5 at or below 70, stopping as soon as the encoded size
fits the byte target.  encQ gives the encoded size for a quality (none
models a sharp failure, which the source wraps and throws). -/
def qualityLoop (encQ : Nat → Option Nat) (targetB : Nat) (q : Nat) : Except Str QualityPhase :=
  if h : 40 ≤ q then
    match encQ q with
    | none => .error ("sharp failed".data)
    | some size =>
      if size ≤ targetB then .ok ⟨some (size, q), [(q, size)], some size⟩
      else
        match qualityLoop encQ targetB (if 70 < q then q - 10 else q - 5) with
        | .error e => .error e
        | .ok p => .ok ⟨p.fit, (q, size) :: p.probes, some (p.last.getD size)⟩
  else .ok ⟨none, [], none⟩
termination_by q
decreasing_by
  split <;> omega

/-- Result of the downscale phase: a fitting encode (size, width, height)
or the dimension floor was reached; with the probe list
(width, height, size). -/
structure DownPhase where
  fit : Option (Nat × Nat × Nat)
  probes : List (Nat × Nat × Nat)
deriving Repr

/-- The downscale loop of compressJpegToTarget: while both dimensions are
above the floor 600, shrink both by the factor 0.8 (rounded), re-encode at
the quality floor, and stop as soon as the size fits the byte target. -/
def downLoop (encD : Nat → Nat → Option Nat) (targetB : Nat) (w h : Nat) : Except Str DownPhase :=
  if hw : 600 < w ∧ 600 < h then
    let w2 := jsRound8of10 w
    let h2 := jsRound8of10 h
    match encD w2 h2 with
    | none => .error ("sharp failed".data)
    | some size =>
      if size ≤ targetB then .ok ⟨some (size, w2, h2), [(w2, h2, size)]⟩
      else
        match downLoop encD targetB w2 h2 with
        | .error e => .error e
        | .ok p => .ok ⟨p.fit, (w2, h2, size) :: p.probes⟩
  else .ok ⟨none, []⟩
termination_by w
decreasing_by
  simp only [jsRound8of10]
  omega

/-- The record compressJpegToTarget resolves with, plus the probe lists of
both phases (instrumentation recording which encodes the routine
performed, for the theorems below). -/
structure CompressOut where
  success : Bool
  sizeB : Nat
  qProbes : List (Nat × Nat)
  dProbes : List (Nat × Nat × Nat)
deriving Repr

/-- compressJpegToTarget from processFile.js, at its default quality
parameters (start 95, floor 40, as used by the one call site): run the
quality loop; if the floor is passed without fitting, read the metadata
dimensions (2000 when missing) and run the downscale loop; report success
with the fitting size, or failure carrying the last quality-phase size
(the source's lastSizeMB, falling back to the destination file size). -/
def compressJpegToTarget (encQ : Nat → Option Nat) (encD : Nat → Nat → Option Nat)
    (metaW metaH : Option Nat) (destSize : Nat) (targetB : Nat) : Except Str CompressOut :=
  match qualityLoop encQ targetB 95 with
  | .error e => .error e
  | .ok qp =>
    match qp.fit with
    | some (size, _) => .ok ⟨true, size, qp.probes, []⟩
    | none =>
      let w := metaW.getD 2000
      let h := metaH.getD 2000
      match downLoop encD targetB w h with
      | .error e => .error e
      | .ok dp =>
        match dp.fit with
        | some (size, _, _) => .ok ⟨true, size, qp.probes, dp.probes⟩
        | none => .ok ⟨false, qp.last.getD destSize, qp.probes, dp.probes⟩

/-- The byte budget corresponding to a target of some megabytes: the
source compares size divided by 1048576 against the target, which for
whole-megabyte targets is exact. -/
def mbBytes (mb : Nat) : Nat := mb * 1048576

/-- Oracle bundle for one run of extractYearWithGemini: the Drive media
download (error, or the base64 character length of the body), the
pdftoppm rasterization, the two compression encode oracles with the page
metadata, and the Gemini exchange outcome. -/
structure YearEnv where
  download : Except Unit Nat
  rasterize : Except Unit Unit
  encQ : Nat → Option Nat
  encD : Nat → Nat → Option Nat
  metaW : Option Nat
  metaH : Option Nat
  destSize : Nat
  gem : GeminiOutcome

/-- extractYearWithGemini from processFile.js: null (none) for non-PDF mime
types; otherwise download the bytes (any throw is caught and yields the
sentinel), compress through compressJpegToTarget when the base64 length
exceeds 48 megabytes (rasterizer or sharp throws are caught to the
sentinel, insufficient compression yields the sentinel), and finally hand
the payload to callGeminiWithPayload.  The function never throws. -/
def extractYearWithGemini (mimeType : Str) (env : YearEnv) : Option Str :=
  if mimeType.isEmpty || !containsSub ("pdf".data) mimeType then none
  else
    match env.download with
    | .error _ => some unknownYear
    | .ok len =>
      if 48 * 1024 * 1024 < len then
        match env.rasterize with
        | .error _ => some unknownYear
        | .ok _ =>
          match compressJpegToTarget env.encQ env.encD env.metaW env.metaH env.destSize (mbBytes 35) with
          | .error _ => some unknownYear
          | .ok r =>
            if r.success then some (callGeminiWithPayload env.gem)
            else some unknownYear
      else some (callGeminiWithPayload env.gem)

/-- The possible outcomes of the RAG fallback exchange as seen by
getPropertyNameFromFilenameRAG, with the error messages the source builds
or re-throws: semFail throws a rate-limit-acquisition message, netErr
re-throws the fetch error, httpErr throws a message naming the status,
jsonErr propagates a body-parse error, ok carries the response text. -/
inductive RagOutcome
  | semFail (msg : Str)
  | netErr (msg : Str)
  | httpErr (status body : Str)
  | jsonErr (msg : Str)
  | ok (text : Option Str)
deriving DecidableEq, Repr

/-- getPropertyNameFromFilenameRAG from processFile.js: null when the
registry is empty (before any call); a thrown error on the four failure
outcomes (the messages as the source constructs them); null on missing
text or the UNKNOWN token; otherwise the title-cased name, also inserted
into the property map.  The Except carries the propagated error message;
the returned map reflects the self-teaching insertion. -/
def getPropertyNameFromFilenameRAG (propertyData : List PropertyRecord) (pm : PMap)
    (rag : RagOutcome) : Except Str (Option Str × PMap) :=
  if propertyData.isEmpty then .ok (none, pm)
  else
    match rag with
    | .semFail m => .error ("Gemini rate limit acquisition failed: ".data ++ m)
    | .netErr m => .error m
    | .httpErr status body => .error ("Gemini API returned ".data ++ status ++ ": ".data ++ body)
    | .jsonErr m => .error m
    | .ok none => .ok (none, pm)
    | .ok (some raw) =>
      let t := trimWs raw
      if t.isEmpty then .ok (none, pm)
      else if upperStr t == "UNKNOWN".data then .ok (none, pm)
      else
        let n := toTitleCase (trimWs (collapseWs t))
        .ok (some n, pmSet pm (lowerStr n) n)

/-- The externally visible side effects of one file's processing, for the
no-op and trace theorems: ragCall is the fallback classification exchange,
yearCall the year-extraction exchange, copy the Drive copy, metaFetch the
Drive metadata fetch, ledgerWrite the ProcessedFiles append attempt (its
flag records whether the underlying write succeeded). -/
inductive Event
  | metaFetch
  | ragCall
  | yearCall
  | copy
  | ledgerWrite (fileId entry : Str) (ok : Bool)
deriving DecidableEq, Repr

/-- Result of the classification phase of processFile: the property name
string it settles on together with the possibly-extended map and the
events, or the error the RAG fallback threw. -/
def classifyStep (filename : Str) (propertyData : List PropertyRecord) (pm : PMap)
    (rag : RagOutcome) : Except Str (Str × PMap × List Event) :=
  match identifyPropertyFromFilename pm filename with
  | some p => .ok (p, pm, [])
  | none =>
    if propertyData.isEmpty then .ok ("Unidentified".data, pm, [])
    else
      match getPropertyNameFromFilenameRAG propertyData pm rag with
      | .error e => .error e
      | .ok (some p, pm2) => .ok (p, pm2, [.ragCall])
      | .ok (none, pm2) => .ok ("Unidentified".data, pm2, [.ragCall])

/-- Oracle bundle for one run of processFile: the RAG outcome, the
year-extraction environment, and the copy step's outcome (the error
message the Drive folder-creation or copy call would throw). -/
structure PFEnv where
  rag : RagOutcome
  year : YearEnv
  copyRes : Except Str Unit

/-- What one run of processFile leaves behind: the map (its mutation
persists even when the run throws), the events, and either the thrown
error message or the (property, year) pair it filed under. -/
structure PFOut where
  pm : PMap
  events : List Event
  result : Except Str (Str × Str)
deriving Repr

/-- The JavaScript or-else: extractYearWithGemini's null (for non-PDF
files) is replaced by the sentinel at the call site in processFile. -/
def orUnknown : Option Str → Str
  | some y => y
  | none => unknownYear

/-- Does extractYearWithGemini reach its Gemini exchange for this mime
type (the PDF test at its entry)?  Used to record the yearCall event. -/
def yearAttempted (mimeType : Str) : Bool :=
  !(mimeType.isEmpty || !containsSub ("pdf".data) mimeType)

/-- processFile from processFile.js: classify (local match, RAG fallback,
Unidentified), extract the year (never throws; null becomes the
sentinel), then copy into the property/year folder (may throw); every
error is re-thrown to the caller. -/
def processFile (filename mimeType : Str) (propertyData : List PropertyRecord) (pm : PMap)
    (env : PFEnv) : PFOut :=
  match classifyStep filename propertyData pm env.rag with
  | .error e => ⟨pm, [.ragCall], .error e⟩
  | .ok (prop, pm2, evs) =>
    let year := orUnknown (extractYearWithGemini mimeType env.year)
    let evs2 := evs ++ (if yearAttempted mimeType then [Event.yearCall] else [])
    match env.copyRes with
    | .error e => ⟨pm2, evs2, .error e⟩
    | .ok _ => ⟨pm2, evs2 ++ [.copy], .ok (prop, year)⟩

/-- A Drive file object: id, name, mime type. -/
structure FileMeta where
  id : Str
  name : Str
  mimeType : Str
deriving DecidableEq, Repr

/-- The in-memory dedup cache: processedFileSet (ids) and
processedFileNames (lowercased names), modelled as lists used as sets. -/
structure DedupState where
  ids : List Str
  names : List Str
deriving DecidableEq, Repr

/-- Set.prototype.add on the list-as-set model. -/
def setAdd (l : List Str) (x : Str) : List Str :=
  if l.contains x then l else l ++ [x]

/-- Add a file id and an already-lowercased name to both dedup sets. -/
def dedupAdd (st : DedupState) (fid nameLower : Str) : DedupState :=
  ⟨setAdd st.ids fid, setAdd st.names nameLower⟩

/-- JavaScript truthiness of an optional string payload field: absent or
empty is falsy. -/
def falsyOpt : Option Str → Bool
  | none => true
  | some s => s.isEmpty

/-- The outcome of the Drive metadata fetch in processMessage: the file
object, or a thrown error which either is or is not a not-found
condition.  The source's control flow does not inspect the flag; it is
carried so the theorems can quantify over it. -/
inductive FetchOutcome
  | ok (f : FileMeta)
  | err (notFound : Bool)
deriving DecidableEq, Repr

/-- Whether the queue consumer acknowledged or nacked the message. -/
inductive Signal
  | ack
  | nack
deriving DecidableEq, Repr

/-- Oracle bundle for one run of processMessage: the metadata fetch, the
processFile oracles, and whether the ledger append (which catches its own
errors) would have succeeded. -/
structure MsgEnv where
  fetch : FetchOutcome
  pf : PFEnv
  ledgerOk : Bool

/-- What one run of processMessage leaves behind. -/
structure MsgOut where
  st : DedupState
  pm : PMap
  events : List Event
  signal : Signal
deriving Repr

/-- The error annotation appended to the file name on a permanent failure
row. -/
def errNote (msg : Str) : Str := " (ERROR: ".data ++ msg ++ ")".data

/-- The permanent-error markers of the queue front-end
(src/subscriber/index.js, processMessage): PDF too large, timeout,
400 Bad Request. -/
def queuePermanentMarker (msg : Str) : Bool :=
  containsSub ("PDF too large".data) msg || containsSub ("timeout".data) msg ||
    containsSub ("400 Bad Request".data) msg

/-- The permanent-error markers of the batch front-end
(processFileFromDrive): the queue list plus rate limit and 429. -/
def batchPermanentMarker (msg : Str) : Bool :=
  queuePermanentMarker msg || containsSub ("rate limit".data) msg ||
    containsSub ("429".data) msg

/-- processMessage from src/subscriber/index.js.  Malformed payloads and
dedup hits are acknowledged untouched; a metadata-fetch throw reaches the
outer catch, which nacks; after a successful fetch, processFile runs —
success adds the file to both dedup sets, appends to the ledger (the
append never throws) and acks; a thrown error with a queue permanent
marker does the same with the error annotated on the row; any other error
nacks, leaving the dedup sets untouched. -/
def processMessage (payload : Option Str × Option Str) (st : DedupState) (pm : PMap)
    (propertyData : List PropertyRecord) (env : MsgEnv) : MsgOut :=
  if falsyOpt payload.1 || falsyOpt payload.2 then ⟨st, pm, [], .ack⟩
  else
    let fid := payload.1.getD []
    let fname := lowerStr (payload.2.getD [])
    if st.ids.contains fid || st.names.contains fname then ⟨st, pm, [], .ack⟩
    else
      match env.fetch with
      | .err _ => ⟨st, pm, [.metaFetch], .nack⟩
      | .ok f =>
        let out := processFile f.name f.mimeType propertyData pm env.pf
        match out.result with
        | .ok _ =>
          ⟨dedupAdd st f.id (lowerStr f.name), out.pm,
            .metaFetch :: out.events ++ [.ledgerWrite f.id f.name env.ledgerOk], .ack⟩
        | .error m =>
          if queuePermanentMarker m then
            ⟨dedupAdd st f.id (lowerStr f.name), out.pm,
              .metaFetch :: out.events ++ [.ledgerWrite f.id (f.name ++ errNote m) env.ledgerOk],
              .ack⟩
          else ⟨st, out.pm, .metaFetch :: out.events, .nack⟩

/-- What one run of processFileFromDrive leaves behind: the state, the
events, and the increments of the totalFilesProcessed and
totalFilesSkipped counters. -/
structure BatchOut where
  st : DedupState
  pm : PMap
  events : List Event
  processedInc : Nat
  skippedInc : Nat
deriving Repr

/-- processFileFromDrive from the batch worker (src/unnamed/part_001).
A dedup hit counts a skip and returns; success adds the file to both
dedup sets, appends to the ledger and counts it processed; a thrown error
with a batch permanent marker (which, unlike the queue list, includes
rate limit and 429) does the same with the annotated row; any other error
just moves on, leaving the dedup sets untouched. -/
def processFileFromDrive (f : FileMeta) (st : DedupState) (pm : PMap)
    (propertyData : List PropertyRecord) (pf : PFEnv) (ledgerOk : Bool) : BatchOut :=
  if st.ids.contains f.id || st.names.contains (lowerStr f.name) then ⟨st, pm, [], 0, 1⟩
  else
    let out := processFile f.name f.mimeType propertyData pm pf
    match out.result with
    | .ok _ =>
      ⟨dedupAdd st f.id (lowerStr f.name), out.pm,
        out.events ++ [.ledgerWrite f.id f.name ledgerOk], 1, 0⟩
    | .error m =>
      if batchPermanentMarker m then
        ⟨dedupAdd st f.id (lowerStr f.name), out.pm,
          out.events ++ [.ledgerWrite f.id (f.name ++ errNote m) ledgerOk], 1, 0⟩
      else ⟨st, out.pm, out.events, 0, 0⟩

/-- A queued ledger row (file id and file-name cell; the timestamp column
is wall-clock and omitted from the model). -/
abbrev Row := Str × Str

/-- Outcome of one addRows attempt of the batched writer: success, or a
throw with the given message. -/
inductive FlushTry
  | ok
  | fail (msg : Str)
deriving DecidableEq, Repr

/-- The quota test of flushSheetQueue: message contains Quota exceeded or
quota. -/
def isQuotaErr (m : Str) : Bool :=
  containsSub ("Quota exceeded".data) m || containsSub ("quota".data) m

/-- The rate-limit test of flushSheetQueue: message contains rate or
limit. -/
def isRateLimitErr (m : Str) : Bool :=
  containsSub ("rate".data) m || containsSub ("limit".data) m

/-- Observable steps of one flush: an addRows attempt (by retry index), a
backoff delay in milliseconds, a successful batch write. -/
inductive FlushEv
  | attempt (k : Nat)
  | backoff (ms : Nat)
  | wrote (rows : List Row)
deriving DecidableEq, Repr

/-- The retry loop of flushSheetQueue (src/unnamed/part_000), with the
source's maxRetries of 3.  tries gives the outcome of the attempt with
each retryCount value; rows are the spliced-out batch and rest the queue
remainder.  On success the batch is written; a quota or rate-limit error
within the ceiling backs off exponentially (30s doubling, capped at 300s)
and retries; other errors retry immediately; once the ceiling is passed
the batch is unshifted back onto the front of the queue. -/
def flushLoop (tries : Nat → FlushTry) (rows rest : List Row) (rc : Nat) :
    List Row × List FlushEv :=
  if hrc : rc ≤ 3 then
    match tries rc with
    | .ok => (rest, [.attempt rc, .wrote rows])
    | .fail m =>
      let rc2 := rc + 1
      if (isQuotaErr m || isRateLimitErr m) && rc2 ≤ 3 then
        let d := min (30000 * 2 ^ (rc2 - 1)) 300000
        let next := flushLoop tries rows rest rc2
        (next.1, .attempt rc :: .backoff d :: next.2)
      else
        if 3 < rc2 then (rows ++ rest, [.attempt rc])
        else
          let next := flushLoop tries rows rest rc2
          (next.1, .attempt rc :: next.2)
  else (rest, [])
termination_by 4 - rc
decreasing_by
  all_goals omega

/-- flushSheetQueue from the batch worker: nothing to do on an empty
queue; otherwise splice the first SHEET_BATCH_SIZE (5) rows out and run
the retry loop on them. -/
def flushSheetQueue (tries : Nat → FlushTry) (q : List Row) : List Row × List FlushEv :=
  if q.isEmpty then (q, [])
  else flushLoop tries (q.take 5) (q.drop 5) 0

/-- The characters that can occur in a normalized filename: lowercase
letters, digits and the single space. -/
def goodChar (c : Char) : Bool := isLowerAZ c || isDigit09 c || c == ' '

/-- The character preceding a position reached after consuming pre, when
prev preceded the whole segment. -/
def prevOf (prev : Option Char) (pre : Str) : Option Char :=
  match pre.getLast? with
  | some c => some c
  | none => prev

/-- A decomposition of l (preceded by prev) exhibiting a
boundary-delimited year token y: spec-side meaning of one regex match. -/
def MatchSplitFrom (prev : Option Char) (l pre y post : Str) : Prop :=
  l = pre ++ y ++ post ∧ yearTok y = true ∧
    boundaryL (prevOf prev pre) = true ∧ boundaryR post = true

/-- A boundary-delimited year token occurring in s (spec-side). -/
def YearSplit (s pre y post : Str) : Prop := MatchSplitFrom none s pre y post

/-- s contains some boundary-delimited 19xx-or-20xx token (spec-side). -/
def HasYearToken (s : Str) : Prop := ∃ pre y post, YearSplit s pre y post

/-- y is the leftmost boundary-delimited year token of s (spec-side). -/
def FirstYearToken (s y : Str) : Prop :=
  ∃ pre post, YearSplit s pre y post ∧
    ∀ pre2 y2 post2, YearSplit s pre2 y2 post2 → pre.length ≤ pre2.length

/-- The descending quality sequence of the compression quality loop: step
10 above 70, step 5 at or below, stopping below the floor 40. -/
def qSeqFrom (q : Nat) : List Nat :=
  if 40 ≤ q then q :: qSeqFrom (if 70 < q then q - 10 else q - 5) else []
termination_by q
decreasing_by
  split <;> omega

/-! Helper lemmas about the string layer. -/

theorem startsWith_mem {n : Str} : ∀ {h : Str}, startsWith n h = true → ∀ c ∈ n, c ∈ h := by
  induction n with
  | nil => intro h _ c hc; cases hc
  | cons a as ih =>
    intro h hs c hc
    cases h with
    | nil => simp [startsWith] at hs
    | cons b bs =>
      simp only [startsWith, Bool.and_eq_true, beq_iff_eq] at hs
      rcases List.mem_cons.mp hc with rfl | hmem
      · exact hs.1 ▸ List.mem_cons_self _ _
      · exact List.mem_cons_of_mem _ (ih hs.2 c hmem)

theorem containsSub_mem {n : Str} : ∀ {h : Str}, containsSub n h = true → ∀ c ∈ n, c ∈ h := by
  intro h
  induction h with
  | nil =>
    intro hc c hcn
    cases n with
    | nil => cases hcn
    | cons a as => simp [containsSub, startsWith] at hc
  | cons b bs ih =>
    intro hc c hcn
    simp only [containsSub, Bool.or_eq_true] at hc
    rcases hc with hs | hrest
    · exact startsWith_mem hs c hcn
    · exact List.mem_cons_of_mem _ (ih hrest c hcn)

theorem mem_replaceBad {s : Str} : ∀ c ∈ replaceBad s, allowedChar c = true := by
  intro c hc
  rcases List.mem_map.mp hc with ⟨a, _, ha⟩
  by_cases h : allowedChar a = true
  · rw [if_pos h] at ha
    rw [← ha]; exact h
  · rw [if_neg h] at ha
    rw [← ha]; decide

theorem mem_collapseWsAux {s : Str} :
    ∀ {b : Bool} {c : Char}, c ∈ collapseWsAux b s → c = ' ' ∨ (c ∈ s ∧ jsWs c = false) := by
  induction s with
  | nil => intro b c hc; cases hc
  | cons x rest ih =>
    intro b c hc
    simp only [collapseWsAux] at hc
    by_cases hx : jsWs x = true
    · simp only [hx, if_true] at hc
      cases b with
      | true =>
        simp only [if_true] at hc
        rcases ih hc with h | ⟨h1, h2⟩
        · exact Or.inl h
        · exact Or.inr ⟨List.mem_cons_of_mem _ h1, h2⟩
      | false =>
        simp only [Bool.false_eq_true, if_neg] at hc
        rcases List.mem_cons.mp hc with rfl | hmem
        · exact Or.inl rfl
        · rcases ih hmem with h | ⟨h1, h2⟩
          · exact Or.inl h
          · exact Or.inr ⟨List.mem_cons_of_mem _ h1, h2⟩
    · simp only [hx, if_neg, Bool.false_eq_true] at hc
      rcases List.mem_cons.mp hc with rfl | hmem
      · exact Or.inr ⟨List.mem_cons_self _ _, by simpa using hx⟩
      · rcases ih hmem with h | ⟨h1, h2⟩
        · exact Or.inl h
        · exact Or.inr ⟨List.mem_cons_of_mem _ h1, h2⟩

theorem mem_trimWs {s : Str} {c : Char} (hc : c ∈ trimWs s) : c ∈ s := by
  simp only [trimWs] at hc
  rw [List.mem_reverse] at hc
  have h1 := (List.dropWhile_sublist jsWs (l := (s.dropWhile jsWs).reverse)).mem hc
  rw [List.mem_reverse] at h1
  exact (List.dropWhile_sublist jsWs (l := s)).mem h1

theorem mem_normalizeFilename {f : Str} : ∀ c ∈ normalizeFilename f, goodChar c = true := by
  intro c hc
  have h1 := mem_trimWs hc
  rcases mem_collapseWsAux h1 with rfl | ⟨h2, h3⟩
  · decide
  · have h4 := mem_replaceBad c h2
    simp only [allowedChar, Bool.or_eq_true] at h4
    rcases h4 with (h | h) | h
    · simp [goodChar, h]
    · simp [goodChar, h]
    · rw [h] at h3; cases h3

theorem containsSub_of_bad_key {k clean : Str} {c : Char} (hck : c ∈ k)
    (hbad : goodChar c = false) (hclean : ∀ d ∈ clean, goodChar d = true) :
    containsSub k clean = false := by
  cases hcs : containsSub k clean with
  | false => rfl
  | true =>
    have := hclean c (containsSub_mem hcs c hck)
    rw [hbad] at this; cases this

/-! Helper lemmas tracing a punctuation character from a registry name
into its stored PropertyMap key. -/

theorem mem_collapseWsAux_of_mem {s : Str} {c : Char} (h1 : c ∈ s) (h2 : jsWs c = false) :
    ∀ b, c ∈ collapseWsAux b s := by
  induction s with
  | nil => cases h1
  | cons x rest ih =>
    intro b
    simp only [collapseWsAux]
    rcases List.mem_cons.mp h1 with rfl | hmem
    · rw [h2]
      simp
    · by_cases hx : jsWs x = true
      · rw [hx]
        cases b with
        | true => simpa using ih hmem true
        | false => simpa using List.mem_cons_of_mem _ (ih hmem true)
      · simp only [hx]
        simpa using List.mem_cons_of_mem _ (ih hmem false)

theorem mem_dropWhile_of_mem {p : Char → Bool} {s : Str} {c : Char} (h1 : c ∈ s)
    (h2 : p c = false) : c ∈ s.dropWhile p := by
  induction s with
  | nil => cases h1
  | cons x rest ih =>
    rw [List.dropWhile_cons]
    rcases List.mem_cons.mp h1 with rfl | hmem
    · rw [h2]
      simp
    · by_cases hx : p x = true
      · rw [hx]; simpa using ih hmem
      · simp only [hx]
        simpa using List.mem_cons_of_mem _ hmem

theorem mem_trimWs_of_mem {s : Str} {c : Char} (h1 : c ∈ s) (h2 : jsWs c = false) :
    c ∈ trimWs s := by
  simp only [trimWs]
  rw [List.mem_reverse]
  exact mem_dropWhile_of_mem (List.mem_reverse.mpr (mem_dropWhile_of_mem h1 h2)) h2

theorem mem_titleAux_of_mem {s : Str} {c : Char} (h1 : c ∈ s) (h2 : isLowerAZ c = false) :
    ∀ b, c ∈ titleAux b s := by
  induction s with
  | nil => cases h1
  | cons x rest ih =>
    intro b
    simp only [titleAux]
    rcases List.mem_cons.mp h1 with rfl | hmem
    · have : (if !b && isLowerAZ c then c.toUpper else c) = c := by
        rw [h2]; simp
      rw [this]; simp
    · simpa using Or.inr (ih hmem (isWordC x))

theorem mem_propKey_of_mem {name : Str} {c : Char} (h1 : c ∈ name) (hws : jsWs c = false)
    (hlow : isLowerAZ c = false) (hfix : Char.toLower c = c) : c ∈ propKey name := by
  have s1 : c ∈ collapseWs name := mem_collapseWsAux_of_mem h1 hws false
  have s2 : c ∈ trimWs (collapseWs name) := mem_trimWs_of_mem s1 hws
  have s3 : c ∈ lowerStr (trimWs (collapseWs name)) := by
    have := List.mem_map_of_mem Char.toLower s2
    rwa [hfix] at this
  have s4 : c ∈ titleAux false (lowerStr (trimWs (collapseWs name))) :=
    mem_titleAux_of_mem s3 hlow false
  have s5 := List.mem_map_of_mem Char.toLower s4
  rw [hfix] at s5
  simpa [propKey, propCanon, toTitleCase, lowerStr] using s5

theorem pmSet_mem {m : PMap} {k v : Str} : ∀ e ∈ pmSet m k v, e ∈ m ∨ e = (k, v) := by
  intro e he
  simp only [pmSet] at he
  by_cases hany : m.any (fun e => e.1 == k) = true
  · rw [if_pos hany] at he
    rcases List.mem_map.mp he with ⟨e2, he2, hmap⟩
    by_cases hk : e2.1 == k
    · rw [if_pos hk] at hmap
      exact Or.inr hmap.symm
    · rw [if_neg hk] at hmap
      exact Or.inl (hmap ▸ he2)
  · rw [if_neg hany] at he
    rcases List.mem_append.mp he with h | h
    · exact Or.inl h
    · simpa using Or.inr (List.mem_singleton.mp h)

theorem populate_mem {props : List PropertyRecord} :
    ∀ e ∈ populatePropertyMap props,
      ∃ p ∈ props, e.1 = propKey p.name ∧ e.2 = propCanon p.name := by
  have general :
      ∀ (l : List PropertyRecord) (acc : PMap),
        ∀ e ∈ l.foldl
          (fun acc p =>
            if p.name.isEmpty then acc else pmSet acc (propKey p.name) (propCanon p.name)) acc,
          e ∈ acc ∨ ∃ p ∈ l, e.1 = propKey p.name ∧ e.2 = propCanon p.name := by
    intro l
    induction l with
    | nil => intro acc e he; exact Or.inl he
    | cons p rest ih =>
      intro acc e he
      simp only [List.foldl_cons] at he
      rcases ih _ e he with hacc | ⟨p2, hp2, he2⟩
      · by_cases hn : p.name.isEmpty = true
        · rw [if_pos hn] at hacc
          exact Or.inl hacc
        · rw [if_neg hn] at hacc
          rcases pmSet_mem e hacc with h | h
          · exact Or.inl h
          · exact Or.inr ⟨p, List.mem_cons_self _ _, by rw [h], by rw [h]⟩
      · exact Or.inr ⟨p2, List.mem_cons_of_mem _ hp2, he2⟩
  intro e he
  rcases general props [] e (by simpa [populatePropertyMap] using he) with h | h
  · cases h
  · exact h

/-- C9 (amended): a registry property whose name keeps, after the case
and whitespace handling of populatePropertyMap, a character outside
lowercase letters, digits and space — i.e. a non-whitespace character
that is not a lowercase letter or digit and is unchanged by lowercasing,
such as the punctuation characters the claim instances — can never be
matched by the local substring scan: no key of the populated map occurs
in any normalized filename, so identifyPropertyFromFilename returns null
for every filename and every such file takes the external fallback path.
(The claim as frozen also counts uppercase letters as disqualifying,
which the counterexample below refutes: keys are lowercased.) -/
theorem C9_punctuated_names_never_match (props : List PropertyRecord) (fname : Str)
    (hbad : ∀ p ∈ props, ∃ c, c ∈ p.name ∧ jsWs c = false ∧ goodChar c = false ∧
      Char.toLower c = c) :
    (∀ e ∈ populatePropertyMap props, containsSub e.1 (normalizeFilename fname) = false)
    ∧ identifyPropertyFromFilename (populatePropertyMap props) fname = none := by
  have keyfail : ∀ e ∈ populatePropertyMap props,
      containsSub e.1 (normalizeFilename fname) = false := by
    intro e he
    rcases populate_mem e he with ⟨p, hp, hkey, _⟩
    rcases hbad p hp with ⟨c, hc1, hc2, hc3, hc4⟩
    have hlow : isLowerAZ c = false := by
      cases h : isLowerAZ c
      · rfl
      · simp [goodChar, h] at hc3
    have hck : c ∈ e.1 := hkey ▸ mem_propKey_of_mem hc1 hc2 hlow hc4
    exact containsSub_of_bad_key hck hc3 (mem_normalizeFilename)
  refine ⟨keyfail, ?_⟩
  simp only [identifyPropertyFromFilename]
  rw [List.find?_eq_none.mpr]
  · rfl
  · intro e he
    simp [keyfail e he]

/-- C9 witness: a concrete registry whose single name is hyphenated is
never matched locally, even by a filename containing its letters. -/
theorem C9_punctuated_names_never_match_witness :
    identifyPropertyFromFilename
      (populatePropertyMap [⟨"oak-st".data, "addr".data⟩]) ("oak st lease".data) = none :=
  (C9_punctuated_names_never_match [⟨"oak-st".data, "addr".data⟩] ("oak st lease".data)
    (by intro p hp; refine ⟨'-', ?_⟩; simp at hp; subst hp; exact ⟨by decide, by decide,
      by decide, by decide⟩)).2

/-- C9 counterexample: the claim as stated disqualifies any name with a
character outside lowercase letters, digits and whitespace; the uppercase
letter of the registry name Oak is such a character, yet the local match
does return this property, because keys are lowercased before storage. -/
theorem C9_cex_uppercase_name_matches :
    ('O' ∈ ("Oak".data) ∧ isLowerAZ 'O' = false ∧ isDigit09 'O' = false ∧ jsWs 'O' = false)
    ∧ identifyPropertyFromFilename
        (populatePropertyMap [⟨"Oak".data, "addr".data⟩]) ("oak lease".data) =
        some ("Oak".data) := by
  decide

/-- C5 (amended): with the code's normalization — which replaces each
character outside lowercase letters, digits and whitespace by a SPACE
before collapsing whitespace, rather than deleting it as the claim's
wording says — identifyPropertyFromFilename returns the canonical value
of the first map entry (in insertion order) whose key is a substring of
the normalized filename, and null when no key is. -/
theorem C5_first_matching_key (pm : PMap) (fname k c : Str) :
    ((∀ e ∈ pm, containsSub e.1 (normalizeFilename fname) = false) →
      identifyPropertyFromFilename pm fname = none)
    ∧ (∀ pre post, pm = pre ++ (k, c) :: post →
        containsSub k (normalizeFilename fname) = true →
        (∀ e ∈ pre, containsSub e.1 (normalizeFilename fname) = false) →
        identifyPropertyFromFilename pm fname = some c) := by
  constructor
  · intro hnone
    simp only [identifyPropertyFromFilename]
    rw [List.find?_eq_none.mpr]
    · rfl
    · intro e he
      simp [hnone e he]
  · intro pre post hpm hk hpre
    subst hpm
    simp only [identifyPropertyFromFilename]
    induction pre with
    | nil =>
      simp only [List.nil_append, List.find?_cons, hk]
      rfl
    | cons e0 rest ih =>
      have h0 : containsSub e0.1 (normalizeFilename fname) = false :=
        hpre e0 (List.mem_cons_self _ _)
      simp only [List.cons_append, List.find?_cons, h0]
      exact ih (fun e he => hpre e (List.mem_cons_of_mem _ he))

/-- C5 witness: a concrete map and filename where the first key matches
and the canonical form is returned. -/
theorem C5_first_matching_key_witness :
    identifyPropertyFromFilename [("oak".data, "Oak".data)] ("my OAK, file".data) =
      some ("Oak".data) :=
  (C5_first_matching_key [("oak".data, "Oak".data)] ("my OAK, file".data)
    ("oak".data) ("Oak".data)).2 [] [] rfl (by decide) (by intro e he; cases he)

/-- C5 counterexample: under the claim's own normalization (characters
outside the class STRIPPED, i.e. deleted), the filename O.a.k contains
the registered key oak, yet the code returns null for it, because the
code replaces the dots by spaces instead of deleting them. -/
theorem C5_cex_strip_vs_replace :
    containsSub ("oak".data) (specNormalizeFilename ("O.a.k".data)) = true
    ∧ populatePropertyMap [⟨"oak".data, "addr".data⟩] = [("oak".data, "Oak".data)]
    ∧ identifyPropertyFromFilename
        (populatePropertyMap [⟨"oak".data, "addr".data⟩]) ("O.a.k".data) = none := by
  decide

/-! Helper lemmas about the year regex scan. -/

theorem yearTok_length {y : Str} (h : yearTok y = true) : y.length = 4 := by
  match y with
  | [_, _, _, _] => rfl
  | [] => simp [yearTok] at h
  | [_] => simp [yearTok] at h
  | [_, _] => simp [yearTok] at h
  | [_, _, _] => simp [yearTok] at h
  | _ :: _ :: _ :: _ :: _ :: _ => simp [yearTok] at h

theorem matchHere_some {prev : Option Char} {l y : Str} (h : matchHere prev l = some y) :
    ∃ post, l = y ++ post ∧ yearTok y = true ∧ boundaryL prev = true ∧ boundaryR post = true := by
  match l with
  | [] => simp [matchHere] at h
  | [_] => simp [matchHere] at h
  | [_, _] => simp [matchHere] at h
  | [_, _, _] => simp [matchHere] at h
  | a :: b :: c :: d :: rest =>
    simp only [matchHere] at h
    by_cases hcond : (boundaryL prev && yearTok [a, b, c, d] && boundaryR rest) = true
    · rw [if_pos hcond] at h
      injection h with hy
      subst hy
      simp only [Bool.and_eq_true] at hcond
      exact ⟨rest, rfl, hcond.1.2, hcond.1.1, hcond.2⟩
    · rw [if_neg hcond] at h
      cases h

theorem matchHere_complete {prev : Option Char} {l y post : Str}
    (hl : l = y ++ post) (ht : yearTok y = true) (hbl : boundaryL prev = true)
    (hbr : boundaryR post = true) : matchHere prev l = some y := by
  match y, ht with
  | [a, b, c, d], ht =>
    subst hl
    simp only [List.cons_append, List.nil_append, matchHere]
    rw [if_pos]
    simp only [Bool.and_eq_true]
    exact ⟨⟨hbl, ht⟩, hbr⟩

theorem prevOf_cons {prev : Option Char} {c : Char} {pre : Str} :
    prevOf prev (c :: pre) = prevOf (some c) pre := by
  cases pre with
  | nil => rfl
  | cons x xs =>
    cases hx : (x :: xs).getLast? with
    | none =>
      rw [List.getLast?_eq_none_iff] at hx
      cases hx
    | some z =>
      simp [prevOf, List.getLast?_cons_cons, hx]

theorem yearScan_none {l : Str} : ∀ {prev : Option Char}, yearScan prev l = none →
    ∀ pre y post, ¬ MatchSplitFrom prev l pre y post := by
  induction l with
  | nil =>
    intro prev _ pre y post hm
    obtain ⟨hl, ht, _, _⟩ := hm
    rcases List.append_eq_nil.mp (List.append_eq_nil.mp hl.symm).1 with ⟨_, hy⟩
    rw [hy] at ht
    simp [yearTok] at ht
  | cons c rest ih =>
    intro prev h pre y post hm
    simp only [yearScan] at h
    cases hmh : matchHere prev (c :: rest) with
    | some y2 => rw [hmh] at h; cases h
    | none =>
      rw [hmh] at h
      obtain ⟨hl, ht, hbl, hbr⟩ := hm
      cases pre with
      | nil =>
        simp only [List.nil_append] at hl
        have := matchHere_complete hl ht (by simpa [prevOf] using hbl) hbr
        rw [this] at hmh
        cases hmh
      | cons c2 pre2 =>
        rw [List.cons_append, List.cons_append] at hl
        injection hl with h1 h2
        subst h1
        exact ih h pre2 y post ⟨h2, ht, by rwa [prevOf_cons] at hbl, hbr⟩

theorem yearScan_some {l : Str} : ∀ {prev : Option Char} {y : Str}, yearScan prev l = some y →
    ∃ pre post, MatchSplitFrom prev l pre y post ∧
      ∀ pre2 y2 post2, MatchSplitFrom prev l pre2 y2 post2 →
        pre.length ≤ pre2.length ∧ (pre2.length = pre.length → y2 = y) := by
  induction l with
  | nil => intro prev y h; simp [yearScan, matchHere] at h
  | cons c rest ih =>
    intro prev y h
    simp only [yearScan] at h
    cases hmh : matchHere prev (c :: rest) with
    | some y0 =>
      rw [hmh] at h
      injection h with hy
      subst hy
      obtain ⟨post, hl, ht, hbl2, hbr⟩ := matchHere_some hmh
      refine ⟨[], post, ⟨by simpa using hl, ht, by simpa [prevOf] using hbl2, hbr⟩, ?_⟩
      intro pre2 y2 post2 hm2
      refine ⟨by simp, ?_⟩
      intro hlen
      have hpre2 : pre2 = [] := List.length_eq_zero.mp (by simpa using hlen)
      subst hpre2
      obtain ⟨hl2, ht2, _, _⟩ := hm2
      simp only [List.nil_append] at hl2
      have hlen4 : y2.length = y0.length := by rw [yearTok_length ht2, yearTok_length ht]
      exact List.append_inj_left (hl2.symm.trans hl) hlen4
    | none =>
      rw [hmh] at h
      obtain ⟨pre, post, hm, hmin⟩ := ih h
      obtain ⟨hl, ht, hbl, hbr⟩ := hm
      refine ⟨c :: pre, post, ⟨by rw [List.cons_append, List.cons_append, ← hl], ht,
        by rwa [prevOf_cons], hbr⟩, ?_⟩
      intro pre2 y2 post2 hm2
      obtain ⟨hl2, ht2, hbl2, hbr2⟩ := hm2
      cases pre2 with
      | nil =>
        exfalso
        simp only [List.nil_append] at hl2
        have := matchHere_complete hl2 ht2 (by simpa [prevOf] using hbl2) hbr2
        rw [this] at hmh
        cases hmh
      | cons c2 pre2t =>
        rw [List.cons_append, List.cons_append] at hl2
        injection hl2 with h1 h2
        subst h1
        obtain ⟨hle, heq⟩ := hmin pre2t y2 post2 ⟨h2, ht2, by rwa [prevOf_cons] at hbl2, hbr2⟩
        refine ⟨by simpa using Nat.succ_le_succ hle, ?_⟩
        intro hlen
        exact heq (by simpa using hlen)

/-- C4 (amended): callGeminiWithPayload never propagates an error — every
failure outcome (semaphore failure, network failure or timeout, non-2xx
response, body-parse failure, missing text) yields the sentinel — and on
a response with text it returns the FIRST boundary-delimited token of the
form 19xx or 20xx, with NO range check against [1950, presentYear]: when
such a token exists the leftmost one is returned verbatim, and when none
exists the sentinel is returned. -/
theorem C4_year_parse (g : GeminiOutcome) :
    ((g = GeminiOutcome.semFail ∨ g = GeminiOutcome.netErr ∨ g = GeminiOutcome.httpErr ∨
        g = GeminiOutcome.jsonErr ∨ g = GeminiOutcome.ok none) →
      callGeminiWithPayload g = unknownYear)
    ∧ (∀ raw, g = GeminiOutcome.ok (some raw) → ¬ HasYearToken (trimWs raw) →
        callGeminiWithPayload g = unknownYear)
    ∧ (∀ raw y, g = GeminiOutcome.ok (some raw) → FirstYearToken (trimWs raw) y →
        callGeminiWithPayload g = y)
    ∧ (∀ y, callGeminiWithPayload g = y → y ≠ unknownYear →
        ∃ raw, g = GeminiOutcome.ok (some raw) ∧ FirstYearToken (trimWs raw) y) := by
  refine ⟨?_, ?_, ?_, ?_⟩
  · rintro (rfl | rfl | rfl | rfl | rfl) <;> rfl
  · rintro raw rfl hno
    simp only [callGeminiWithPayload]
    by_cases he : (trimWs raw).isEmpty
    · rw [if_pos he]
    · rw [if_neg he]
      cases hfm : firstYearMatch (trimWs raw) with
      | none => rfl
      | some y0 =>
        exfalso
        obtain ⟨pre, post, hm, _⟩ := yearScan_some hfm
        exact hno ⟨pre, y0, post, hm⟩
  · rintro raw y rfl hfirst
    obtain ⟨pre, post, hm, hminf⟩ := hfirst
    simp only [callGeminiWithPayload]
    by_cases he : (trimWs raw).isEmpty
    · exfalso
      obtain ⟨hl, ht, _, _⟩ := hm
      rw [List.isEmpty_iff] at he
      rw [he] at hl
      rcases List.append_eq_nil.mp (List.append_eq_nil.mp hl.symm).1 with ⟨_, hy⟩
      rw [hy] at ht
      simp [yearTok] at ht
    · rw [if_neg he]
      cases hfm : firstYearMatch (trimWs raw) with
      | none =>
        exfalso
        exact yearScan_none hfm pre y post hm
      | some y0 =>
        obtain ⟨pre0, post0, hm0, hmin0⟩ := yearScan_some hfm
        have h1 : pre0.length ≤ pre.length := (hmin0 pre y post hm).1
        have h2 : pre.length ≤ pre0.length := hminf pre0 y0 post0 hm0
        have := (hmin0 pre y post hm).2 (Nat.le_antisymm h2 h1)
        rw [this]
  · intro y hres hne
    cases g with
    | ok t =>
      cases t with
      | none => exact absurd hres.symm (by simpa [callGeminiWithPayload] using hne)
      | some raw =>
        refine ⟨raw, rfl, ?_⟩
        simp only [callGeminiWithPayload] at hres
        by_cases he : (trimWs raw).isEmpty
        · rw [if_pos he] at hres
          exact absurd hres.symm (by simpa using hne)
        · rw [if_neg he] at hres
          cases hfm : firstYearMatch (trimWs raw) with
          | none =>
            rw [hfm] at hres
            exact absurd hres.symm (by simpa using hne)
          | some y0 =>
            rw [hfm] at hres
            obtain ⟨pre0, post0, hm0, hmin0⟩ := yearScan_some hfm
            subst hres
            exact ⟨pre0, post0, hm0, fun pre2 y2 post2 hm2 => (hmin0 pre2 y2 post2 hm2).1⟩
    | semFail => exact absurd hres.symm (by simpa [callGeminiWithPayload] using hne)
    | netErr => exact absurd hres.symm (by simpa [callGeminiWithPayload] using hne)
    | httpErr => exact absurd hres.symm (by simpa [callGeminiWithPayload] using hne)
    | jsonErr => exact absurd hres.symm (by simpa [callGeminiWithPayload] using hne)

/-- C4 witness: a non-2xx response yields the sentinel and no error. -/
theorem C4_year_parse_witness :
    callGeminiWithPayload GeminiOutcome.httpErr = unknownYear :=
  (C4_year_parse GeminiOutcome.httpErr).1 (Or.inr (Or.inr (Or.inl rfl)))

/-- C4 counterexample: the response text 2099 contains no 4-digit token in
[1950, 2026], so the claim requires the sentinel, but the code returns
2099 — its regex checks the 19-or-20 prefix only and never the claimed
range. -/
theorem C4_cex_out_of_range_token :
    specHasTokenInRange 2026 ("2099".data) = false
    ∧ callGeminiWithPayload (GeminiOutcome.ok (some ("2099".data))) = "2099".data
    ∧ "2099".data ≠ unknownYear := by
  decide

/-! Helper facts about JavaScript truthiness of the parsed payload
fields. -/

theorem falsyOpt_some_ne {s : Str} (h : s ≠ []) : falsyOpt (some s) = false := by
  cases s with
  | nil => exact absurd rfl h
  | cons a as => rfl

/-- C1: a file whose id is already in processedFileSet or whose lowercased
name is already in processedFileNames is a no-op in both front-ends: the
queue consumer acks and returns, the batch worker counts one skip and
returns, and neither performs a metadata fetch, classification or
year-extraction call, copy, dedup-set mutation or ledger write (the event
trace is empty and the state is returned unchanged). -/
theorem C1_dedup_skip_noop :
    (∀ (fid raw : Str) (st : DedupState) (pm : PMap) (pd : List PropertyRecord)
        (env : MsgEnv), fid ≠ [] → raw ≠ [] →
      (st.ids.contains fid || st.names.contains (lowerStr raw)) = true →
      processMessage (some fid, some raw) st pm pd env = ⟨st, pm, [], Signal.ack⟩)
    ∧ (∀ (f : FileMeta) (st : DedupState) (pm : PMap) (pd : List PropertyRecord)
        (pf : PFEnv) (lok : Bool),
      (st.ids.contains f.id || st.names.contains (lowerStr f.name)) = true →
      processFileFromDrive f st pm pd pf lok = ⟨st, pm, [], 0, 1⟩) := by
  constructor
  · intro fid raw st pm pd env hfid hraw hdup
    have hdup2 : fid ∈ st.ids ∨ lowerStr raw ∈ st.names := by simpa using hdup
    rcases hdup2 with h | h <;>
      simp [processMessage, falsyOpt_some_ne hfid, falsyOpt_some_ne hraw, h]
  · intro f st pm pd pf lok hdup
    have hdup2 : f.id ∈ st.ids ∨ lowerStr f.name ∈ st.names := by simpa using hdup
    rcases hdup2 with h | h <;> simp [processFileFromDrive, h]

/-- C1 witness: a concrete already-processed file is skipped by both
front-ends. -/
theorem C1_dedup_skip_noop_witness :
    processMessage (some ("F1".data), some ("A.pdf".data)) ⟨["F1".data], []⟩ [] []
        ⟨FetchOutcome.err true, ⟨RagOutcome.ok none,
          ⟨Except.ok 0, Except.ok (), fun _ => none, fun _ _ => none, none, none, 0,
            GeminiOutcome.ok none⟩, Except.ok ()⟩, true⟩ =
      ⟨⟨["F1".data], []⟩, [], [], Signal.ack⟩
    ∧ processFileFromDrive ⟨"F1".data, "A.pdf".data, "application/pdf".data⟩
        ⟨["F1".data], []⟩ [] []
        ⟨RagOutcome.ok none, ⟨Except.ok 0, Except.ok (), fun _ => none, fun _ _ => none,
          none, none, 0, GeminiOutcome.ok none⟩, Except.ok ()⟩ true =
      ⟨⟨["F1".data], []⟩, [], [], 0, 1⟩ :=
  ⟨C1_dedup_skip_noop.1 _ _ _ _ _ _ (by decide) (by decide) (by decide),
    C1_dedup_skip_noop.2 _ _ _ _ _ _ (by decide)⟩

/-- C3 (amended): every metadata-fetch failure in processMessage — whether
or not it is a not-found condition — propagates to the outer catch, which
nacks the message and leaves the dedup sets untouched; the code has no
not-found special case, so a vanished file is redelivered like any
transient failure. -/
theorem C3_fetch_failure_nacks (fid raw : Str) (st : DedupState) (pm : PMap)
    (pd : List PropertyRecord) (pf : PFEnv) (lok nf : Bool)
    (hfid : fid ≠ []) (hraw : raw ≠ [])
    (hid : st.ids.contains fid = false) (hnm : st.names.contains (lowerStr raw) = false) :
    processMessage (some fid, some raw) st pm pd ⟨FetchOutcome.err nf, pf, lok⟩ =
      ⟨st, pm, [Event.metaFetch], Signal.nack⟩ := by
  have hid2 : fid ∉ st.ids := by simpa using hid
  have hnm2 : lowerStr raw ∉ st.names := by simpa using hnm
  simp [processMessage, falsyOpt_some_ne hfid, falsyOpt_some_ne hraw, hid2, hnm2]

/-- C3 witness: a not-found fetch failure on a concrete message is
nacked. -/
theorem C3_fetch_failure_nacks_witness :
    processMessage (some ("F1".data), some ("a".data)) ⟨[], []⟩ [] []
        ⟨FetchOutcome.err true, ⟨RagOutcome.ok none, ⟨Except.ok 0, Except.ok (),
          fun _ => none, fun _ _ => none, none, none, 0, GeminiOutcome.ok none⟩,
          Except.ok ()⟩, true⟩ =
      ⟨⟨[], []⟩, [], [Event.metaFetch], Signal.nack⟩ :=
  C3_fetch_failure_nacks _ _ _ _ _ _ true true (by decide) (by decide) (by decide) (by decide)

/-- C3 counterexample: at a concrete message whose metadata fetch fails
with a not-found condition, the outcome signal is nack — the claim
requires the message to be acknowledged in that case. -/
theorem C3_cex_notfound_not_acked :
    (processMessage (some ("F1".data), some ("a".data)) ⟨[], []⟩ [] []
        ⟨FetchOutcome.err true, ⟨RagOutcome.ok none, ⟨Except.ok 0, Except.ok (),
          fun _ => none, fun _ _ => none, none, none, 0, GeminiOutcome.ok none⟩,
          Except.ok ()⟩, true⟩).signal = Signal.nack
    ∧ Signal.nack ≠ Signal.ack := by
  exact ⟨rfl, by decide⟩

/-- C2 (amended): the two front-ends force a permanent outcome — dedup
sets extended with the id and lowercased name, a ledger row annotated
with the error text, ack or advance — for their OWN marker lists, which
differ: the queue consumer recognizes only PDF too large, timeout and
400 Bad Request, while the batch worker additionally recognizes
rate limit and 429.  A 429 error is therefore permanent only in the
batch front-end (see the counterexample for the queue side). -/
theorem C2_permanent_markers (fid raw m : Str) (f : FileMeta) (st : DedupState) (pm : PMap)
    (pd : List PropertyRecord) (pf : PFEnv) (lok : Bool)
    (herr : (processFile f.name f.mimeType pd pm pf).result = Except.error m) :
    (fid ≠ [] → raw ≠ [] →
      st.ids.contains fid = false → st.names.contains (lowerStr raw) = false →
      queuePermanentMarker m = true →
      processMessage (some fid, some raw) st pm pd ⟨FetchOutcome.ok f, pf, lok⟩ =
        ⟨dedupAdd st f.id (lowerStr f.name), (processFile f.name f.mimeType pd pm pf).pm,
          Event.metaFetch :: (processFile f.name f.mimeType pd pm pf).events ++
            [Event.ledgerWrite f.id (f.name ++ errNote m) lok], Signal.ack⟩)
    ∧ (st.ids.contains f.id = false → st.names.contains (lowerStr f.name) = false →
        batchPermanentMarker m = true →
        processFileFromDrive f st pm pd pf lok =
          ⟨dedupAdd st f.id (lowerStr f.name), (processFile f.name f.mimeType pd pm pf).pm,
            (processFile f.name f.mimeType pd pm pf).events ++
              [Event.ledgerWrite f.id (f.name ++ errNote m) lok], 1, 0⟩) := by
  constructor
  · intro hfid hraw hid hnm hmark
    have hid2 : fid ∉ st.ids := by simpa using hid
    have hnm2 : lowerStr raw ∉ st.names := by simpa using hnm
    simp [processMessage, falsyOpt_some_ne hfid, falsyOpt_some_ne hraw, hid2, hnm2, herr, hmark]
  · intro hid hnm hmark
    have hid2 : f.id ∉ st.ids := by simpa using hid
    have hnm2 : lowerStr f.name ∉ st.names := by simpa using hnm
    simp [processFileFromDrive, hid2, hnm2, herr, hmark]

/-- C2 witness: a timeout error is permanent in the queue front-end, and a
429 error is permanent in the batch front-end, each at a concrete file. -/
theorem C2_permanent_markers_witness :
    processMessage (some ("F1".data), some ("A.pdf".data)) ⟨[], []⟩ [] []
        ⟨FetchOutcome.ok ⟨"F1".data, "A.pdf".data, "text/plain".data⟩,
          ⟨RagOutcome.ok none, ⟨Except.ok 0, Except.ok (), fun _ => none, fun _ _ => none,
            none, none, 0, GeminiOutcome.ok none⟩,
          Except.error ("timeout of 15000ms exceeded".data)⟩, true⟩ =
      ⟨⟨["F1".data], ["a.pdf".data]⟩, [],
        [Event.metaFetch,
          Event.ledgerWrite ("F1".data)
            ("A.pdf".data ++ errNote ("timeout of 15000ms exceeded".data)) true],
        Signal.ack⟩
    ∧ processFileFromDrive ⟨"F2".data, "B.pdf".data, "text/plain".data⟩ ⟨[], []⟩ [] []
        ⟨RagOutcome.ok none, ⟨Except.ok 0, Except.ok (), fun _ => none, fun _ _ => none,
          none, none, 0, GeminiOutcome.ok none⟩,
          Except.error ("Request failed with status code 429".data)⟩ true =
      ⟨⟨["F2".data], ["b.pdf".data]⟩, [],
        [Event.ledgerWrite ("F2".data)
          ("B.pdf".data ++ errNote ("Request failed with status code 429".data)) true],
        1, 0⟩ :=
  ⟨(C2_permanent_markers ("F1".data) ("A.pdf".data) ("timeout of 15000ms exceeded".data)
      ⟨"F1".data, "A.pdf".data, "text/plain".data⟩ ⟨[], []⟩ [] []
      ⟨RagOutcome.ok none, ⟨Except.ok 0, Except.ok (), fun _ => none, fun _ _ => none,
        none, none, 0, GeminiOutcome.ok none⟩,
        Except.error ("timeout of 15000ms exceeded".data)⟩ true rfl).1
      (by decide) (by decide) (by decide) (by decide) (by decide),
    (C2_permanent_markers ("F2".data) ("B.pdf".data)
      ("Request failed with status code 429".data)
      ⟨"F2".data, "B.pdf".data, "text/plain".data⟩ ⟨[], []⟩ [] []
      ⟨RagOutcome.ok none, ⟨Except.ok 0, Except.ok (), fun _ => none, fun _ _ => none,
        none, none, 0, GeminiOutcome.ok none⟩,
        Except.error ("Request failed with status code 429".data)⟩ true rfl).2
      (by decide) (by decide) (by decide)⟩

/-- C2 counterexample: in the queue front-end a filing error containing
429 is NOT a permanent marker — the message is nacked for redelivery and
the dedup sets stay untouched, where the claim requires a permanent
outcome with acknowledgement in both front-ends. -/
theorem C2_cex_queue_429_redelivered :
    containsSub ("429".data) ("Request failed with status code 429".data) = true
    ∧ processMessage (some ("F1".data), some ("A.pdf".data)) ⟨[], []⟩ [] []
        ⟨FetchOutcome.ok ⟨"F1".data, "A.pdf".data, "text/plain".data⟩,
          ⟨RagOutcome.ok none, ⟨Except.ok 0, Except.ok (), fun _ => none, fun _ _ => none,
            none, none, 0, GeminiOutcome.ok none⟩,
          Except.error ("Request failed with status code 429".data)⟩, true⟩ =
        ⟨⟨[], []⟩, [], [Event.metaFetch], Signal.nack⟩ := by
  exact ⟨by decide, rfl⟩

/-- C10: the ledger flag (whether the internally-caught per-file append
would have succeeded) never influences the state, map or signal of
processMessage; in particular the success path acks and caches the file
in the dedup sets even when the ledger row was not durably written. -/
theorem C10_ledger_failure_invisible :
    (∀ payload st pm pd fetch pf (b b2 : Bool),
      (processMessage payload st pm pd ⟨fetch, pf, b⟩).st =
          (processMessage payload st pm pd ⟨fetch, pf, b2⟩).st
      ∧ (processMessage payload st pm pd ⟨fetch, pf, b⟩).pm =
          (processMessage payload st pm pd ⟨fetch, pf, b2⟩).pm
      ∧ (processMessage payload st pm pd ⟨fetch, pf, b⟩).signal =
          (processMessage payload st pm pd ⟨fetch, pf, b2⟩).signal)
    ∧ (∀ (fid raw : Str) st pm pd (f : FileMeta) pf (b : Bool) pr yr,
        fid ≠ [] → raw ≠ [] →
        st.ids.contains fid = false → st.names.contains (lowerStr raw) = false →
        (processFile f.name f.mimeType pd pm pf).result = Except.ok (pr, yr) →
        processMessage (some fid, some raw) st pm pd ⟨FetchOutcome.ok f, pf, b⟩ =
          ⟨dedupAdd st f.id (lowerStr f.name), (processFile f.name f.mimeType pd pm pf).pm,
            Event.metaFetch :: (processFile f.name f.mimeType pd pm pf).events ++
              [Event.ledgerWrite f.id f.name b], Signal.ack⟩) := by
  constructor
  · intro payload st pm pd fetch pf b b2
    cases fetch with
    | err nf => exact ⟨rfl, rfl, rfl⟩
    | ok f =>
      unfold processMessage
      dsimp only
      refine ⟨?_, ?_, ?_⟩ <;>
        · split
          · rfl
          · split
            · rfl
            · split
              · rfl
              · split
                · rfl
                · rfl
  · intro fid raw st pm pd f pf b pr yr hfid hraw hid hnm hok
    have hid2 : fid ∉ st.ids := by simpa using hid
    have hnm2 : lowerStr raw ∉ st.names := by simpa using hnm
    simp [processMessage, falsyOpt_some_ne hfid, falsyOpt_some_ne hraw, hid2, hnm2, hok]

/-- C10 witness: a concrete successful file is acknowledged and cached
with the ledger flag false — no durable ledger record. -/
theorem C10_ledger_failure_invisible_witness :
    processMessage (some ("F1".data), some ("A.pdf".data)) ⟨[], []⟩ [] []
        ⟨FetchOutcome.ok ⟨"F1".data, "A.pdf".data, "text/plain".data⟩,
          ⟨RagOutcome.ok none, ⟨Except.ok 0, Except.ok (), fun _ => none, fun _ _ => none,
            none, none, 0, GeminiOutcome.ok none⟩, Except.ok ()⟩, false⟩ =
      ⟨⟨["F1".data], ["a.pdf".data]⟩, [],
        [Event.metaFetch, Event.copy, Event.ledgerWrite ("F1".data) ("A.pdf".data) false],
        Signal.ack⟩ :=
  C10_ledger_failure_invisible.2 ("F1".data) ("A.pdf".data) _ _ _ _ _ false
    ("Unidentified".data) unknownYear (by decide) (by decide) (by decide) (by decide) rfl

/-- C6 (amended): the classification phase yields a string — the local
match, the fallback's resolved name, or Unidentified — whenever the
fallback exchange returns at all (any ok outcome), the registry is empty,
or the local match succeeds; but when the local match fails, the registry
is non-empty and the fallback throws (semaphore failure, network failure,
non-2xx, body-parse), classifyStep and therefore processFile propagate
the error: the classification step CAN fail the pipeline, contrary to the
claim. -/
theorem C6_classification (fname mime : Str) (pd : List PropertyRecord) (pm : PMap)
    (rag : RagOutcome) (yenv : YearEnv) (cres : Except Str Unit) :
    ((∃ t, rag = RagOutcome.ok t) ∨ pd = [] ∨ (identifyPropertyFromFilename pm fname).isSome →
      ∃ p pm2 evs, classifyStep fname pd pm rag = Except.ok (p, pm2, evs))
    ∧ (∀ e, classifyStep fname pd pm rag = Except.error e →
        processFile fname mime pd pm ⟨rag, yenv, cres⟩ =
          ⟨pm, [Event.ragCall], Except.error e⟩) := by
  constructor
  · intro h
    cases hloc : identifyPropertyFromFilename pm fname with
    | some p => exact ⟨p, pm, [], by simp [classifyStep, hloc]⟩
    | none =>
      rcases h with ⟨t, rfl⟩ | rfl | hsome
      · cases hpd : pd.isEmpty with
        | true =>
          refine ⟨"Unidentified".data, pm, [], ?_⟩
          simp [classifyStep, hloc, hpd]
        | false =>
          cases t with
          | none =>
            refine ⟨"Unidentified".data, pm, [Event.ragCall], ?_⟩
            simp [classifyStep, hloc, hpd, getPropertyNameFromFilenameRAG]
          | some raw =>
            by_cases he : (trimWs raw).isEmpty = true
            · refine ⟨"Unidentified".data, pm, [Event.ragCall], ?_⟩
              simp [classifyStep, hloc, hpd, getPropertyNameFromFilenameRAG, he]
            · by_cases hu : upperStr (trimWs raw) == "UNKNOWN".data
              · refine ⟨"Unidentified".data, pm, [Event.ragCall], ?_⟩
                simp [classifyStep, hloc, hpd, getPropertyNameFromFilenameRAG, he, hu]
              · refine ⟨toTitleCase (trimWs (collapseWs (trimWs raw))),
                  pmSet pm (lowerStr (toTitleCase (trimWs (collapseWs (trimWs raw)))))
                    (toTitleCase (trimWs (collapseWs (trimWs raw)))), [Event.ragCall], ?_⟩
                simp [classifyStep, hloc, hpd, getPropertyNameFromFilenameRAG, he, hu]
      · exact ⟨"Unidentified".data, pm, [], by simp [classifyStep, hloc]⟩
      · rw [hloc] at hsome
        cases hsome
  · intro e he
    simp [processFile, he]

/-- C6 witness: with a benign fallback outcome (the model of a 2xx
UNKNOWN reply) classification yields a string on a concrete file. -/
theorem C6_classification_witness :
    ∃ p pm2 evs,
      classifyStep ("A.pdf".data) [⟨"n".data, "a".data⟩] [] (RagOutcome.ok none) =
        Except.ok (p, pm2, evs) :=
  (C6_classification ("A.pdf".data) ("application/pdf".data) [⟨"n".data, "a".data⟩] []
    (RagOutcome.ok none)
    ⟨Except.ok 0, Except.ok (), fun _ => none, fun _ _ => none, none, none, 0,
      GeminiOutcome.ok none⟩ (Except.ok ())).1 (Or.inl ⟨none, rfl⟩)

/-- C6 counterexample: a non-2xx fallback response on a concrete file
makes processFile throw out of its classification step (the trace shows
only the fallback call — no year call, no copy), where the claim says the
classification step never propagates an error. -/
theorem C6_cex_rag_error_fails_pipeline :
    processFile ("A.pdf".data) ("application/pdf".data) [⟨"n".data, "a".data⟩] []
        ⟨RagOutcome.httpErr ("429".data) ("quota".data),
          ⟨Except.ok 0, Except.ok (), fun _ => none, fun _ _ => none, none, none, 0,
            GeminiOutcome.ok none⟩, Except.ok ()⟩ =
      ⟨[], [Event.ragCall], Except.error ("Gemini API returned 429: quota".data)⟩ := by
  rfl

theorem flushLoop_all_fail (tries : Nat → FlushTry) (rows rest : List Row) :
    ∀ rc, rc ≤ 3 → (∀ k, rc ≤ k → k ≤ 3 → tries k ≠ FlushTry.ok) →
      (flushLoop tries rows rest rc).1 = rows ++ rest := by
  intro rc
  induction rc using flushLoop.induct tries rows rest with
  | case1 x hx hok =>
    intro _ hfail
    exact absurd hok (hfail x le_rfl hx)
  | case2 x hx m hfail rc2 hcond ih =>
    intro _ hall
    have hr : rc2 = x + 1 := rfl
    have hrc2 : rc2 ≤ 3 := by
      simp only [Bool.and_eq_true, decide_eq_true_eq] at hcond
      exact hcond.2
    rw [flushLoop.eq_def, dif_pos hx, hfail]
    dsimp only
    rw [if_pos hcond]
    dsimp only
    exact ih hrc2 (fun k hk1 hk2 => hall k (by omega) hk2)
  | case3 x hx m hfail rc2 hcond h3 =>
    intro _ _
    rw [flushLoop.eq_def, dif_pos hx, hfail]
    dsimp only
    rw [if_neg hcond, if_pos h3]
  | case4 x hx m hfail rc2 hcond h3 ih =>
    intro _ hall
    have hr : rc2 = x + 1 := rfl
    rw [flushLoop.eq_def, dif_pos hx, hfail]
    dsimp only
    rw [if_neg hcond, if_neg h3]
    dsimp only
    exact ih (by omega) (fun k hk1 hk2 => hall k (by omega) hk2)
  | case5 x hx =>
    intro h2
    exact absurd h2 hx

theorem flushLoop_first_ok (tries : Nat → FlushTry) (rows rest : List Row) :
    ∀ rc, rc ≤ 3 →
      ∀ k, rc ≤ k → k ≤ 3 → tries k = FlushTry.ok →
        (∀ j, rc ≤ j → j < k → tries j ≠ FlushTry.ok) →
        (flushLoop tries rows rest rc).1 = rest ∧
          FlushEv.wrote rows ∈ (flushLoop tries rows rest rc).2 := by
  intro rc
  induction rc using flushLoop.induct tries rows rest with
  | case1 x hx hok =>
    intro _ k _ _ _ _
    rw [flushLoop.eq_def, dif_pos hx, hok]
    exact ⟨rfl, by simp⟩
  | case2 x hx m hfail rc2 hcond ih =>
    intro _ k hk1 hk2 hok hprev
    have hr : rc2 = x + 1 := rfl
    have hrc2 : rc2 ≤ 3 := by
      simp only [Bool.and_eq_true, decide_eq_true_eq] at hcond
      exact hcond.2
    have hxk : x ≠ k := by
      intro he
      rw [← he, hfail] at hok
      cases hok
    rw [flushLoop.eq_def, dif_pos hx, hfail]
    dsimp only
    rw [if_pos hcond]
    dsimp only
    have := ih hrc2 k (by omega) hk2 hok (fun j hj1 hj2 => hprev j (by omega) hj2)
    exact ⟨this.1, by simp only [List.mem_cons]; exact Or.inr (Or.inr this.2)⟩
  | case3 x hx m hfail rc2 hcond h3 =>
    intro _ k hk1 hk2 hok _
    have hr : rc2 = x + 1 := rfl
    have hxk : x = k := by omega
    rw [← hxk, hfail] at hok
    cases hok
  | case4 x hx m hfail rc2 hcond h3 ih =>
    intro _ k hk1 hk2 hok hprev
    have hr : rc2 = x + 1 := rfl
    have hxk : x ≠ k := by
      intro he
      rw [← he, hfail] at hok
      cases hok
    rw [flushLoop.eq_def, dif_pos hx, hfail]
    dsimp only
    rw [if_neg hcond, if_neg h3]
    dsimp only
    have := ih (by omega) k (by omega) hk2 hok (fun j hj1 hj2 => hprev j (by omega) hj2)
    exact ⟨this.1, by simp only [List.mem_cons]; exact Or.inr this.2⟩
  | case5 x hx =>
    intro h2
    exact absurd h2 hx

theorem flushLoop_backoff (tries : Nat → FlushTry) (rows rest : List Row) :
    ∀ rc, rc ≤ 3 →
      ∀ j m, rc ≤ j → j < 3 → tries j = FlushTry.fail m →
        (isQuotaErr m || isRateLimitErr m) = true →
        (∀ i, rc ≤ i → i ≤ j → tries i ≠ FlushTry.ok) →
        FlushEv.backoff (min (30000 * 2 ^ j) 300000) ∈ (flushLoop tries rows rest rc).2 := by
  intro rc
  induction rc using flushLoop.induct tries rows rest with
  | case1 x hx hok =>
    intro _ j m hj1 _ _ _ hnotok
    exact absurd hok (hnotok x le_rfl (by omega))
  | case2 x hx m0 hfail rc2 hcond ih =>
    intro _ j m hj1 hj3 hjf hquota hnotok
    have hr : rc2 = x + 1 := rfl
    have hrc2 : rc2 ≤ 3 := by
      simp only [Bool.and_eq_true, decide_eq_true_eq] at hcond
      exact hcond.2
    rw [flushLoop.eq_def, dif_pos hx, hfail]
    dsimp only
    rw [if_pos hcond]
    dsimp only
    by_cases hjx : j = x
    · subst hjx
      rw [hfail] at hjf
      injection hjf with hm
      subst hm
      simp only [List.mem_cons]
      exact Or.inr (Or.inl (by simp))
    · have := ih hrc2 j m (by omega) hj3 hjf hquota (fun i hi1 hi2 => hnotok i (by omega) hi2)
      simp only [List.mem_cons]
      exact Or.inr (Or.inr this)
  | case3 x hx m0 hfail rc2 hcond h3 =>
    intro _ j m hj1 hj3 _ _ _
    have hr : rc2 = x + 1 := rfl
    omega
  | case4 x hx m0 hfail rc2 hcond h3 ih =>
    intro _ j m hj1 hj3 hjf hquota hnotok
    have hr : rc2 = x + 1 := rfl
    have hnq : ¬ ((isQuotaErr m0 || isRateLimitErr m0) = true) := by
      intro hq
      apply hcond
      simp only [Bool.and_eq_true, decide_eq_true_eq]
      exact ⟨hq, by omega⟩
    have hjx : j ≠ x := by
      intro he
      rw [he, hfail] at hjf
      injection hjf with hm
      rw [hm] at hnq
      exact hnq hquota
    rw [flushLoop.eq_def, dif_pos hx, hfail]
    dsimp only
    rw [if_neg hcond, if_neg h3]
    dsimp only
    have := ih (by omega) j m (by omega) hj3 hjf hquota (fun i hi1 hi2 => hnotok i (by omega) hi2)
    simp only [List.mem_cons]
    exact Or.inr this
  | case5 x hx =>
    intro h2
    exact absurd h2 hx

theorem flushLoop_attempt_le (tries : Nat → FlushTry) (rows rest : List Row) :
    ∀ rc k, FlushEv.attempt k ∈ (flushLoop tries rows rest rc).2 → k ≤ 3 := by
  intro rc
  induction rc using flushLoop.induct tries rows rest with
  | case1 x hx hok =>
    intro k hmem
    rw [flushLoop.eq_def, dif_pos hx, hok] at hmem
    simp only [List.mem_cons, List.mem_singleton] at hmem
    rcases hmem with h | h | h
    · injection h with h2; omega
    · cases h
    · cases h
  | case2 x hx m hfail rc2 hcond ih =>
    intro k hmem
    rw [flushLoop.eq_def, dif_pos hx, hfail] at hmem
    dsimp only at hmem
    rw [if_pos hcond] at hmem
    dsimp only at hmem
    simp only [List.mem_cons] at hmem
    rcases hmem with h | h | h
    · injection h with h2; omega
    · cases h
    · exact ih k h
  | case3 x hx m hfail rc2 hcond h3 =>
    intro k hmem
    rw [flushLoop.eq_def, dif_pos hx, hfail] at hmem
    dsimp only at hmem
    rw [if_neg hcond, if_pos h3] at hmem
    simp only [List.mem_singleton] at hmem
    injection hmem with h2; omega
  | case4 x hx m hfail rc2 hcond h3 ih =>
    intro k hmem
    rw [flushLoop.eq_def, dif_pos hx, hfail] at hmem
    dsimp only at hmem
    rw [if_neg hcond, if_neg h3] at hmem
    dsimp only at hmem
    simp only [List.mem_cons] at hmem
    rcases hmem with h | h
    · injection h with h2; omega
    · exact ih k h
  | case5 x hx =>
    intro k hmem
    rw [flushLoop.eq_def, dif_neg hx] at hmem
    cases hmem

/-- C7: the batched ledger flush retries a failed batch write up to the
fixed attempt ceiling (retry indices never exceed 3, so at most 4
attempts), waits the exponential backoff delay of 30000 times 2 to the
retry index milliseconds (capped at 300000) before each retry of a
quota or rate-limit failure, and on exhaustion of the retries leaves the
spliced-out rows back at the FRONT of the write queue — the final queue
equals the original one — so no queued ledger entry is lost while the
process is alive; on the first successful attempt the batch is written
and removed from the queue. -/
theorem C7_flush_retry_requeue (tries : Nat → FlushTry) (q : List Row) (hne : q ≠ []) :
    ((∀ k, k ≤ 3 → tries k ≠ FlushTry.ok) → (flushSheetQueue tries q).1 = q)
    ∧ (∀ k, k ≤ 3 → tries k = FlushTry.ok → (∀ j, j < k → tries j ≠ FlushTry.ok) →
        (flushSheetQueue tries q).1 = List.drop 5 q
        ∧ FlushEv.wrote (List.take 5 q) ∈ (flushSheetQueue tries q).2)
    ∧ (∀ j m, j < 3 → tries j = FlushTry.fail m →
        (isQuotaErr m || isRateLimitErr m) = true → (∀ i, i ≤ j → tries i ≠ FlushTry.ok) →
        FlushEv.backoff (min (30000 * 2 ^ j) 300000) ∈ (flushSheetQueue tries q).2)
    ∧ (∀ k, FlushEv.attempt k ∈ (flushSheetQueue tries q).2 → k ≤ 3) := by
  have hq : q.isEmpty = false := by
    cases q with
    | nil => exact absurd rfl hne
    | cons a as => rfl
  have hsq : flushSheetQueue tries q = flushLoop tries (q.take 5) (q.drop 5) 0 := by
    simp [flushSheetQueue, hq]
  refine ⟨?_, ?_, ?_, ?_⟩
  · intro hall
    rw [hsq, flushLoop_all_fail tries _ _ 0 (by omega) (fun k _ hk2 => hall k hk2)]
    exact List.take_append_drop 5 q
  · intro k hk3 hok hprev
    rw [hsq]
    exact flushLoop_first_ok tries _ _ 0 (by omega) k (by omega) hk3 hok
      (fun j _ hj2 => hprev j hj2)
  · intro j m hj3 hjf hquota hnotok
    rw [hsq]
    exact flushLoop_backoff tries _ _ 0 (by omega) j m (by omega) hj3 hjf hquota
      (fun i _ hi2 => hnotok i hi2)
  · intro k hmem
    rw [hsq] at hmem
    exact flushLoop_attempt_le tries _ _ 0 k hmem

/-- C7 witness: with every attempt failing on a quota error, a concrete
one-row queue is intact after the flush and a 30-second backoff was
taken. -/
theorem C7_flush_retry_requeue_witness :
    (flushSheetQueue (fun _ => FlushTry.fail ("Quota exceeded: write".data))
        [("F1".data, "A.pdf".data)]).1 = [("F1".data, "A.pdf".data)]
    ∧ FlushEv.backoff 30000 ∈
        (flushSheetQueue (fun _ => FlushTry.fail ("Quota exceeded: write".data))
          [("F1".data, "A.pdf".data)]).2 := by
  refine ⟨(C7_flush_retry_requeue _ _ (by decide)).1 (fun k _ h => FlushTry.noConfusion h), ?_⟩
  have hb := (C7_flush_retry_requeue (fun _ => FlushTry.fail ("Quota exceeded: write".data))
    [("F1".data, "A.pdf".data)] (by decide)).2.2.1 0 ("Quota exceeded: write".data)
    (by omega) rfl (by decide) (fun i _ h => FlushTry.noConfusion h)
  simpa using hb

theorem qSeq95 : qSeqFrom 95 = [95, 85, 75, 65, 60, 55, 50, 45, 40] := by
  simp [qSeqFrom]

theorem qSeqFrom_step {x : Nat} (hx : 40 ≤ x) :
    qSeqFrom x = x :: qSeqFrom (if 70 < x then x - 10 else x - 5) := by
  conv_lhs => rw [qSeqFrom]
  rw [if_pos hx]

theorem qSeqFrom_base {x : Nat} (hx : ¬ 40 ≤ x) : qSeqFrom x = [] := by
  conv_lhs => rw [qSeqFrom]
  rw [if_neg hx]

theorem qualityLoop_ok (encQ : Nat → Option Nat) (targetB : Nat) :
    ∀ q p, qualityLoop encQ targetB q = Except.ok p →
      (∀ s qq, p.fit = some (s, qq) → s ≤ targetB ∧ encQ qq = some s)
      ∧ (p.fit = none →
          (∀ pr ∈ p.probes, targetB < pr.2) ∧ p.probes.map Prod.fst = qSeqFrom q)
      ∧ (∃ tail, qSeqFrom q = p.probes.map Prod.fst ++ tail) := by
  intro q
  induction q using qualityLoop.induct encQ targetB with
  | case1 x hx henc =>
    intro p hp
    rw [qualityLoop.eq_def, dif_pos hx, henc] at hp
    cases hp
  | case2 x hx size henc hle =>
    intro p hp
    rw [qualityLoop.eq_def, dif_pos hx, henc] at hp
    dsimp only at hp
    rw [if_pos hle] at hp
    injection hp with hp
    subst hp
    refine ⟨?_, ?_, ?_⟩
    · intro s qq hfit
      dsimp only at hfit
      injection hfit with hpair
      injection hpair with h1 h2
      subst h1
      subst h2
      exact ⟨hle, henc⟩
    · intro hfit
      exact Option.noConfusion hfit
    · refine ⟨qSeqFrom (if 70 < x then x - 10 else x - 5), ?_⟩
      rw [qSeqFrom_step hx]
      rfl
  | case3 x hx size henc hnle e herr ih =>
    intro p hp
    simp only [dite_eq_ite] at herr
    rw [qualityLoop.eq_def, dif_pos hx, henc] at hp
    dsimp only at hp
    rw [if_neg hnle, herr] at hp
    cases hp
  | case4 x hx size henc hnle p2 hok ih =>
    intro p hp
    simp only [dite_eq_ite] at hok ih
    rw [qualityLoop.eq_def, dif_pos hx, henc] at hp
    dsimp only at hp
    rw [if_neg hnle, hok] at hp
    dsimp only at hp
    injection hp with hp
    subst hp
    obtain ⟨ihfit, ihnone, ihtail⟩ := ih p2 hok
    refine ⟨?_, ?_, ?_⟩
    · intro s qq hfit
      exact ihfit s qq hfit
    · intro hfit
      obtain ⟨hsizes, hmap⟩ := ihnone hfit
      refine ⟨?_, ?_⟩
      · intro pr hpr
        rcases List.mem_cons.mp hpr with rfl | hmem
        · exact Nat.lt_of_not_le hnle
        · exact hsizes pr hmem
      · dsimp only [List.map_cons]
        rw [hmap, qSeqFrom_step hx]
    · obtain ⟨tail, htail⟩ := ihtail
      refine ⟨tail, ?_⟩
      rw [qSeqFrom_step hx]
      dsimp only [List.map_cons]
      rw [htail]
      rfl
  | case5 x hx =>
    intro p hp
    rw [qualityLoop.eq_def, dif_neg hx] at hp
    injection hp with hp
    subst hp
    refine ⟨?_, ?_, ?_⟩
    · intro s qq hfit
      exact Option.noConfusion hfit
    · intro _
      refine ⟨?_, ?_⟩
      · intro pr hpr
        cases hpr
      · rw [qSeqFrom_base hx]
        rfl
    · refine ⟨[], ?_⟩
      rw [qSeqFrom_base hx]
      rfl

theorem jsRound8of10_lt {w : Nat} (hw : 600 < w) : jsRound8of10 w < w := by
  simp only [jsRound8of10]
  omega

theorem downLoop_ok (encD : Nat → Nat → Option Nat) (targetB : Nat) :
    ∀ w h p, downLoop encD targetB w h = Except.ok p →
      (∀ s ww hh, p.fit = some (s, ww, hh) → s ≤ targetB)
      ∧ (p.fit = none → ∀ pr ∈ p.probes, targetB < pr.2.2)
      ∧ p.probes.length ≤ w := by
  intro w h
  induction w, h using downLoop.induct encD targetB with
  | case1 w h hwh w2 h2 henc =>
    intro p hp
    rw [downLoop.eq_def, dif_pos hwh] at hp
    dsimp only at hp
    have henc2 : encD (jsRound8of10 w) (jsRound8of10 h) = none := henc
    rw [henc2] at hp
    cases hp
  | case2 w h hwh w2 h2 size henc hle =>
    intro p hp
    rw [downLoop.eq_def, dif_pos hwh] at hp
    dsimp only at hp
    have henc2 : encD (jsRound8of10 w) (jsRound8of10 h) = some size := henc
    rw [henc2] at hp
    dsimp only at hp
    rw [if_pos hle] at hp
    injection hp with hp
    subst hp
    refine ⟨?_, ?_, ?_⟩
    · intro s ww hh hfit
      dsimp only at hfit
      injection hfit with hpair
      injection hpair with h1 h2
      subst h1
      exact hle
    · intro hfit
      exact Option.noConfusion hfit
    · dsimp only [List.length_cons, List.length_nil]
      omega
  | case3 w h hwh w2 h2 size henc hnle e herr ih =>
    intro p hp
    rw [downLoop.eq_def, dif_pos hwh] at hp
    dsimp only at hp
    have henc2 : encD (jsRound8of10 w) (jsRound8of10 h) = some size := henc
    have herr2 : downLoop encD targetB (jsRound8of10 w) (jsRound8of10 h) = Except.error e := herr
    rw [henc2] at hp
    dsimp only at hp
    rw [if_neg hnle, herr2] at hp
    cases hp
  | case4 w h hwh w2 h2 size henc hnle p2 hok ih =>
    intro p hp
    rw [downLoop.eq_def, dif_pos hwh] at hp
    dsimp only at hp
    have henc2 : encD (jsRound8of10 w) (jsRound8of10 h) = some size := henc
    have hok2 : downLoop encD targetB (jsRound8of10 w) (jsRound8of10 h) = Except.ok p2 := hok
    rw [henc2] at hp
    dsimp only at hp
    rw [if_neg hnle, hok2] at hp
    dsimp only at hp
    injection hp with hp
    subst hp
    obtain ⟨ihfit, ihnone, ihlen⟩ := ih p2 hok
    refine ⟨ihfit, ?_, ?_⟩
    · intro hfit pr hpr
      rcases List.mem_cons.mp hpr with rfl | hmem
      · exact Nat.lt_of_not_le hnle
      · exact ihnone hfit pr hmem
    · dsimp only [List.length_cons]
      have hlt : w2 < w := jsRound8of10_lt hwh.1
      omega
  | case5 w h hwh =>
    intro p hp
    rw [downLoop.eq_def, dif_neg hwh] at hp
    injection hp with hp
    subst hp
    refine ⟨?_, ?_, ?_⟩
    · intro s ww hh hfit
      exact Option.noConfusion hfit
    · intro _ pr hpr
      cases hpr
    · simp

/-- C8: compressJpegToTarget terminates (it is total, with at most 9
quality probes — exactly the strictly decreasing sequence 95, 85, 75,
65, 60, 55, 50, 45, 40 when the floor is reached — and at most one
downscale probe per unit of starting width); whenever it reports
success the produced size is at or under the byte target, and when both
the quality floor and the dimension floor are passed without fitting it
reports failure, every probe of both phases having exceeded the
target. -/
theorem C8_compress_bounded (encQ : Nat → Option Nat) (encD : Nat → Nat → Option Nat)
    (metaW metaH : Option Nat) (destSize targetB : Nat) :
    ∀ r, compressJpegToTarget encQ encD metaW metaH destSize targetB = Except.ok r →
      (r.success = true → r.sizeB ≤ targetB)
      ∧ (r.success = false →
          r.qProbes.map Prod.fst = [95, 85, 75, 65, 60, 55, 50, 45, 40]
          ∧ (∀ pr ∈ r.qProbes, targetB < pr.2)
          ∧ (∀ pr ∈ r.dProbes, targetB < pr.2.2))
      ∧ r.qProbes.length ≤ 9
      ∧ r.dProbes.length ≤ metaW.getD 2000 := by
  intro r hr
  unfold compressJpegToTarget at hr
  cases hq : qualityLoop encQ targetB 95 with
  | error e =>
    rw [hq] at hr
    cases hr
  | ok qp =>
    rw [hq] at hr
    dsimp only at hr
    obtain ⟨hqfit, hqnone, hqtail⟩ := qualityLoop_ok encQ targetB 95 qp hq
    have hqlen : qp.probes.length ≤ 9 := by
      obtain ⟨tail, htail⟩ := hqtail
      have h9 := congrArg List.length htail
      simp [qSeq95] at h9
      omega
    cases hfit : qp.fit with
    | some sq =>
      obtain ⟨s, qq⟩ := sq
      rw [hfit] at hr
      dsimp only at hr
      injection hr with hr
      subst hr
      refine ⟨?_, ?_, ?_, ?_⟩
      · intro _
        exact (hqfit s qq hfit).1
      · intro hfalse
        cases hfalse
      · exact hqlen
      · simp
    | none =>
      rw [hfit] at hr
      dsimp only at hr
      cases hd : downLoop encD targetB (metaW.getD 2000) (metaH.getD 2000) with
      | error e =>
        rw [hd] at hr
        cases hr
      | ok dp =>
        rw [hd] at hr
        dsimp only at hr
        obtain ⟨hdfit, hdnone, hdlen⟩ := downLoop_ok encD targetB _ _ dp hd
        cases hdf : dp.fit with
        | some sd =>
          obtain ⟨s, ww, hh⟩ := sd
          rw [hdf] at hr
          dsimp only at hr
          injection hr with hr
          subst hr
          refine ⟨?_, ?_, ?_, ?_⟩
          · intro _
            exact hdfit s ww hh hdf
          · intro hfalse
            cases hfalse
          · exact hqlen
          · exact hdlen
        | none =>
          rw [hdf] at hr
          dsimp only at hr
          injection hr with hr
          subst hr
          refine ⟨?_, ?_, ?_, ?_⟩
          · intro htrue
            cases htrue
          · intro _
            obtain ⟨hsizes, hmap⟩ := hqnone hfit
            exact ⟨by rw [hmap, qSeq95], hsizes, hdnone hdf⟩
          · exact hqlen
          · exact hdlen

/-- C8 witness: with an encoder that immediately fits the budget, the
reported success size is within the 35-megabyte target. -/
theorem C8_compress_bounded_witness :
    ((⟨true, 7, [(95, 7)], []⟩ : CompressOut).success = true →
      (⟨true, 7, [(95, 7)], []⟩ : CompressOut).sizeB ≤ mbBytes 35) ∧
    (⟨true, 7, [(95, 7)], []⟩ : CompressOut).sizeB ≤ mbBytes 35 := by
  have happ := C8_compress_bounded (fun _ => some 7) (fun _ _ => some 7) none none 0
    (mbBytes 35) ⟨true, 7, [(95, 7)], []⟩ (by simp [compressJpegToTarget, qualityLoop, mbBytes])
  exact ⟨happ.1, happ.1 rfl⟩

end PropPipeline
